import Mathlib

/-!
Verification development for the driftwood Lua scripting host.

The embedding models the Lua-facing command-registration binding
(`internal/lua/bindings/register_app.go`), the Lua manager's ready-callback
and dispatch plumbing (`internal/lua/manager.go`), and the component
marshalling helper (`internal/lua/utils`, `ParseComponents`).

Modelling conventions:
- gopher-lua `LValue`s are the inductive `LValue` below; Lua numbers are
  modelled as integers (`Int`) — every number occurring in the verified
  behaviour (option `type` codes) is integral in the source.
- gopher-lua tables are modelled as an ordered array part plus an ordered
  association-list hash part; `ForEach` visits the array part in order and
  then the hash part (hash iteration order in Go is unspecified; nothing
  verified below depends on hash iteration order — scripts supply option
  and component lists through the array part).
- Go maps (`b.Commands`, the Lua globals table) are association lists with
  overwrite-on-insert (`assocSet`) and first-match lookup (`assocGet`);
  they are never iterated by the modelled code, so list order is
  unobservable.
- `L.ArgError` / `L.RaiseError` unwind the registering call; mutations
  performed before the raise persist (Go-side map writes and `SetGlobal`s
  are not transactional).  Functions therefore return their partial state
  together with an `Option String` error.
- Outbound platform calls (`Session.ApplicationCommandCreate`) are recorded
  as emitted `PlatformCall` effects; the platform's own success/failure is
  outside the verified state machine.
-/

namespace Driftwood

/-- gopher-lua values.  A table has an array part (consecutive integer keys,
in order) and a hash part (string keys). -/
inductive LValue where
  | lnil : LValue
  | lbool (b : Bool) : LValue
  | lnum (n : Int) : LValue
  | lstr (s : String) : LValue
  | lfunc (id : Nat) : LValue
  | ltable (arr : List LValue) (hash : List (String × LValue)) : LValue

def LValue.isNil : LValue → Bool
  | .lnil => true
  | _ => false

def LValue.isStr : LValue → Bool
  | .lstr _ => true
  | _ => false

def LValue.isFunc : LValue → Bool
  | .lfunc _ => true
  | _ => false

def LValue.isTab : LValue → Bool
  | .ltable _ _ => true
  | _ => false

def LValue.isNum : LValue → Bool
  | .lnum _ => true
  | _ => false

/-- First-match association-list lookup (Go map read / table hash read). -/
def assocGet {α : Type} : List (String × α) → String → Option α
  | [], _ => none
  | (k, v) :: rest, key => if k = key then some v else assocGet rest key

/-- Overwrite-on-insert association-list update (Go map write, `SetGlobal`). -/
def assocSet {α : Type} : List (String × α) → String → α → List (String × α)
  | [], key, v => [(key, v)]
  | (k, v') :: rest, key, v =>
      if k = key then (key, v) :: rest else (k, v') :: assocSet rest key v

/-- `LTable.RawGetString`: hash lookup, `LNil` when absent or not a table. -/
def rawGetString : LValue → String → LValue
  | .ltable _ hash, key => (assocGet hash key).getD .lnil
  | _, _ => .lnil

/-- The sequence of values visited by `LTable.ForEach`: array part in order,
then hash-part values. -/
def forEachList : LValue → List LValue
  | .ltable arr hash => arr ++ hash.map (fun p => p.2)
  | _ => []

/-- `LValue.String()` as used by the modelled code (addresses of functions and
tables are not modelled; only string receivers matter to the claims). -/
def lvToString : LValue → String
  | .lnil => "nil"
  | .lbool true => "true"
  | .lbool false => "false"
  | .lnum n => toString n
  | .lstr s => s
  | .lfunc _ => "function"
  | .ltable _ _ => "table"

/-- `lua.LVAsBool`: everything is truthy except `nil` and `false`. -/
def lvAsBool : LValue → Bool
  | .lnil => false
  | .lbool b => b
  | _ => true

/-- Integer content of a number value (`IntValue`/`FloatValue` receivers,
integral in all verified behaviour). -/
def lvNumOf : LValue → Int
  | .lnum n => n
  | _ => 0

/-- String content of a string value (`StringValue`). -/
def lvStrOf : LValue → String
  | .lstr s => s
  | _ => ""

/-- Boolean content of a boolean value (`BoolValue`). -/
def lvBoolOf : LValue → Bool
  | .lbool b => b
  | _ => false

/-- Go `fmt.Sprintf "%v"` over the modelled dynamic values. -/
def goSprintf : LValue → String
  | .lnil => "<nil>"
  | .lbool true => "true"
  | .lbool false => "false"
  | .lnum n => toString n
  | .lstr s => s
  | .lfunc _ => "function"
  | .ltable _ _ => "table"

/-- Go `uint8(...)` conversion applied to a Lua number. -/
def uint8OfInt (n : Int) : Nat := (n % 256).toNat

/-- `discordgo.ApplicationCommandOption` (fields used by the source:
Name, Description, Type, Required, Options).  Option `type` codes follow
`DiscordOptionTypes`: 1 = subcommand, 2 = subcommand group, 3 = string,
4 = integer, 5 = boolean, 10 = number. -/
inductive ACOption where
  | mk (name description : String) (typ : Nat) (required : Bool)
       (options : List ACOption) : ACOption

/-- `discordgo.ApplicationCommand` (fields set by the source). -/
structure ApplicationCommand where
  name : String
  description : String
  options : List ACOption

/-- An outbound platform call (`Session.ApplicationCommandCreate(userID,
guildID, cmd)`); the session is identified by its `State.User.ID`. -/
inductive PlatformCall where
  | commandCreate (userID guildID : String) (cmd : ApplicationCommand) : PlatformCall

/-- The full modelled state: the `ApplicationCommandBinding` fields
(`Session`, `GuildID`, `Commands`, `waitRegister`), the shared Lua globals
table, and the manager's `OnReadyCbs` list. -/
structure World where
  session : Option String
  guildID : String
  commands : List (String × String)
  waitRegister : List ApplicationCommand
  globals : List (String × LValue)
  onReadyCbs : List String

/-- The slice of state touched by `parseOptions` (it writes only Lua globals
and `b.Commands`). -/
structure ParseState where
  globals : List (String × LValue)
  commands : List (String × String)

theorem sizeOf_assocGet_hash (hash : List (String × LValue)) (key : String)
    (v : LValue) (h : assocGet hash key = some v) : sizeOf v < sizeOf hash := by
  induction hash with
  | nil => simp [assocGet] at h
  | cons p rest ih =>
    obtain ⟨k, v'⟩ := p
    simp only [assocGet] at h
    by_cases hk : k = key
    · simp [hk] at h
      subst h
      simp
      omega
    · simp [hk] at h
      have := ih h
      simp
      omega

theorem sizeOf_list_ge_one {α : Type} [SizeOf α] (l : List α) :
    1 ≤ sizeOf l := by
  cases l <;> simp <;> omega

theorem sizeOf_rawGetString_lt (v : LValue) (key : String)
    (hv : v.isTab = true) : sizeOf (rawGetString v key) < sizeOf v := by
  cases v with
  | ltable arr hash =>
    have ha := sizeOf_list_ge_one arr
    have hh := sizeOf_list_ge_one hash
    simp only [rawGetString]
    cases h : assocGet hash key with
    | none => simp [Option.getD]; omega
    | some u =>
      have := sizeOf_assocGet_hash hash key u h
      simp [Option.getD]
      omega
  | lnil => simp [LValue.isTab] at hv
  | lbool b => simp [LValue.isTab] at hv
  | lnum n => simp [LValue.isTab] at hv
  | lstr s => simp [LValue.isTab] at hv
  | lfunc id => simp [LValue.isTab] at hv

theorem sizeOf_list_append {α : Type} [SizeOf α] (l1 l2 : List α) :
    sizeOf (l1 ++ l2) + 1 = sizeOf l1 + sizeOf l2 := by
  induction l1 with
  | nil => simp; omega
  | cons a rest ih => simp; omega

theorem sizeOf_map_snd_le (hash : List (String × LValue)) :
    sizeOf (hash.map (fun p => p.2)) ≤ sizeOf hash := by
  induction hash with
  | nil => simp
  | cons p rest ih =>
    obtain ⟨k, v⟩ := p
    simp
    omega

theorem sizeOf_forEachList_lt (v : LValue) (hv : v.isTab = true) :
    sizeOf (forEachList v) < sizeOf v := by
  cases v with
  | ltable arr hash =>
    simp only [forEachList]
    have h1 := sizeOf_list_append arr (hash.map (fun p => p.2))
    have h2 := sizeOf_map_snd_le hash
    simp
    omega
  | lnil => simp [LValue.isTab] at hv
  | lbool b => simp [LValue.isTab] at hv
  | lnum n => simp [LValue.isTab] at hv
  | lstr s => simp [LValue.isTab] at hv
  | lfunc id => simp [LValue.isTab] at hv

theorem sizeOf_lvalue_pos (v : LValue) : 0 < sizeOf v := by
  cases v <;> simp <;> omega

/-- `(*ApplicationCommandBinding).parseOptions`, iterating the `ForEach`
sequence of an options table.  Mirrors the source exactly: non-table entries
are skipped; `name`/`description`/`type` kind failures raise (the raise
unwinds the whole registration, partial state persists); a subcommand
(type 1) must carry a function `handler`, which is installed as global
`handler_<parent>_<name>` and recorded in `b.Commands` under
`<parent>_<name>` before nested options are parsed recursively with the
extended parent name. -/
def parseOptionsList (ps : ParseState) (parentName : String) :
    List LValue → ParseState × List ACOption × Option String
  | [] => (ps, [], none)
  | v :: rest =>
    if hv : v.isTab = true then
      if (rawGetString v "name").isStr = false then
        (ps, [], some "\x27name\x27 in options must be a string")
      else if (rawGetString v "description").isStr = false then
        (ps, [], some "\x27description\x27 in options must be a string")
      else if (rawGetString v "type").isNum = false then
        (ps, [], some "\x27type\x27 in options must be a number")
      else
        let optName := lvToString (rawGetString v "name")
        let optDescription := lvToString (rawGetString v "description")
        let optType := uint8OfInt (lvNumOf (rawGetString v "type"))
        let optRequired := lvAsBool (rawGetString v "required")
        if optType = 1 then
          if (rawGetString v "handler").isFunc = false then
            (ps, [], some "Subcommand \x27%s\x27 must have a \x27handler\x27 function")
          else
            let handlerName := "handler_" ++ parentName ++ "_" ++ optName
            let key := parentName ++ "_" ++ optName
            let ps1 : ParseState :=
              ⟨assocSet ps.globals handlerName (rawGetString v "handler"),
               assocSet ps.commands key handlerName⟩
            let sub :=
              if hst : (rawGetString v "options").isTab = true then
                parseOptionsList ps1 key (forEachList (rawGetString v "options"))
              else (ps1, [], none)
            match sub with
            | (ps2, _, some e) => (ps2, [], some e)
            | (ps2, subOpts, none) =>
              let opt := ACOption.mk optName optDescription optType optRequired subOpts
              match parseOptionsList ps2 parentName rest with
              | (ps3, opts, err3) => (ps3, opt :: opts, err3)
        else
          let opt := ACOption.mk optName optDescription optType optRequired []
          match parseOptionsList ps parentName rest with
          | (ps3, opts, err3) => (ps3, opt :: opts, err3)
    else
      parseOptionsList ps parentName rest
termination_by vs => sizeOf vs
decreasing_by
  all_goals
    first
      | (have h1 := sizeOf_forEachList_lt (rawGetString v "options") hst
         have h2 := sizeOf_rawGetString_lt v "options" hv
         simp <;> omega)
      | (have hp := sizeOf_lvalue_pos v
         simp <;> omega)

/-- The outcome of one `register_application_command` call: the state after
the call, the platform calls it emitted, and the raised argument error, if
any (`none` = returned normally). -/
structure RegOut where
  world : World
  calls : List PlatformCall
  err : Option String

/-- The Lua entry point returned by
`(*ApplicationCommandBinding).Register()`.  Field-kind validation happens
first (`ArgError` raises immediately); a present handler is installed as
global `handler_<name>` and recorded in `b.Commands`; options are parsed by
`parseOptions`; the built command is queued on `waitRegister` when no
session is bound, and sent to the platform immediately otherwise. -/
def register (w : World) (command : LValue) : RegOut :=
  let name := rawGetString command "name"
  if name.isStr = false then
    ⟨w, [], some "\x27name\x27 must be a string"⟩
  else
    let description := rawGetString command "description"
    if description.isStr = false then
      ⟨w, [], some "\x27description\x27 must be a string"⟩
    else
      let handler := rawGetString command "handler"
      if !handler.isNil && !handler.isFunc then
        ⟨w, [], some "\x27handler\x27 must be a function if provided"⟩
      else
        let options := rawGetString command "options"
        if !options.isNil && !options.isTab then
          ⟨w, [], some "\x27options\x27 must be a table if provided"⟩
        else
          let globalName := "handler_" ++ lvToString name
          let w1 :=
            if handler.isNil then w
            else { w with
                    globals := assocSet w.globals globalName handler,
                    commands := assocSet w.commands (lvToString name) globalName }
          let parsed :=
            if options.isNil then (⟨w1.globals, w1.commands⟩, [], none)
            else parseOptionsList ⟨w1.globals, w1.commands⟩ (lvToString name)
                   (forEachList options)
          match parsed with
          | (ps, _, some e) =>
            ⟨{ w1 with globals := ps.globals, commands := ps.commands }, [], some e⟩
          | (ps, commandOptions, none) =>
            let w2 := { w1 with globals := ps.globals, commands := ps.commands }
            let appCmd : ApplicationCommand :=
              ⟨lvToString name, lvToString description, commandOptions⟩
            match w2.session with
            | none =>
              ⟨{ w2 with waitRegister := w2.waitRegister ++ [appCmd] }, [], none⟩
            | some s =>
              ⟨w2, [PlatformCall.commandCreate s w2.guildID appCmd], none⟩

/-- `(*ApplicationCommandBinding).SetSession`: stores the session, then
replays every queued closure against it, in queue order.  The
`waitRegister` list itself is left in place. -/
def setSessionB (w : World) (s : String) : World × List PlatformCall :=
  ({ w with session := some s },
   w.waitRegister.map (fun c => PlatformCall.commandCreate s w.guildID c))

/-- A sequence of `register_application_command` calls performed one after
another (each call's mutations persist whether or not it raised). -/
def runRegs (w : World) : List LValue → World × List PlatformCall
  | [] => (w, [])
  | d :: ds =>
    let r := register w d
    let rec' := runRegs r.world ds
    (rec'.1, r.calls ++ rec'.2)

/-- `discordgo.ApplicationCommandInteractionDataOption` (fields used by the
source: Name, Type, Value, Options).  `options = none` models a `nil` Go
slice, `some []` a non-nil empty one. -/
inductive DataOption where
  | mk (name : String) (typ : Nat) (value : LValue)
       (options : Option (List DataOption)) : DataOption

def DataOption.name : DataOption → String
  | .mk n _ _ _ => n

def DataOption.typ : DataOption → Nat
  | .mk _ t _ _ => t

/-- The dispatch-key loop at the top of `HandleInteraction`: append the name
of the first option whose type is subcommand (type 1), then `break`. -/
def computeKey (name : String) : List DataOption → String
  | [] => name
  | .mk optName optType _ _ :: rest =>
    if optType = 1 then name ++ "_" ++ optName else computeKey name rest

/-- The `switch opt.Type` conversion inside `buildOptionsTable`: integer,
boolean, string and number options keep their kind; anything else is
stringified with `%v`. -/
def optionLuaValue (typ : Nat) (value : LValue) : LValue :=
  if typ = 4 then .lnum (lvNumOf value)
  else if typ = 5 then .lbool (lvBoolOf value)
  else if typ = 3 then .lstr (lvStrOf value)
  else if typ = 10 then .lnum (lvNumOf value)
  else .lstr (goSprintf value)

/-- `(*ApplicationCommandBinding).buildOptionsTable`.  The accumulating
table `T` is threaded through: on the first subcommand option with a
non-nil nested list the function returns the recursion on that list
(entries already in `T` stay in `T`; later entries of the current level are
dropped); a subcommand with a nil nested list is skipped; every other
option is written into `T` under its name. -/
def buildOptionsTable (T : List (String × LValue)) :
    List DataOption → List (String × LValue)
  | [] => T
  | .mk optName optType optValue optOptions :: rest =>
    if optType = 1 then
      match optOptions with
      | some inner => buildOptionsTable T inner
      | none => buildOptionsTable T rest
    else
      buildOptionsTable (assocSet T optName (optionLuaValue optType optValue)) rest

/-- The command payload of an inbound interaction
(`interaction.ApplicationCommandData()`). -/
structure InteractionData where
  name : String
  options : List DataOption

/-- What happened inside the Runner task submitted by `HandleInteraction`:
either the looked-up global was `nil` (logged, nothing called) or the
handler was called under pcall with the flattened options table; `ok`
records whether the protected call succeeded. -/
inductive ExecEvent where
  | handlerMissing (globalName : String) : ExecEvent
  | handlerCalled (globalName : String) (args : List (String × LValue))
      (ok : Bool) : ExecEvent

/-- Whether a protected call of a Lua value succeeds: only functions can be
called, and a called function's runtime success is given by the oracle
`runs` on its id. -/
def callOk (runs : Nat → Bool) : LValue → Bool
  | .lfunc id => runs id
  | _ => false

/-- `(*ApplicationCommandBinding).HandleInteraction`: compute the dispatch
key; a missing `b.Commands` entry returns the `not registered` error with
no Runner task; otherwise the Runner task runs the handler (missing global
and pcall failure are only logged) and the method returns `nil`. -/
def handleInteraction (w : World) (runs : Nat → Bool) (data : InteractionData) :
    Option String × List ExecEvent :=
  let commandName := computeKey data.name data.options
  match assocGet w.commands commandName with
  | none => (some ("command \x27" ++ commandName ++ "\x27 not registered"), [])
  | some globalName =>
    let fn := (assocGet w.globals globalName).getD .lnil
    if fn.isNil then (none, [.handlerMissing globalName])
    else
      (none, [.handlerCalled globalName (buildOptionsTable [] data.options)
                (callOk runs fn)])

/-- Log records produced by `(*LuaManager).HandleCommand`. -/
inductive DispatchLog where
  | warnBindingError (bindingName : String) (err : String) : DispatchLog
  | warnBindingNotFound : DispatchLog

/-- `discordgo.InteractionApplicationCommand`. -/
def interactionApplicationCommand : Nat := 2

/-- `(*LuaManager).HandleCommand`.  The command binding's
`CanHandleInteraction` claims exactly the application-command interaction
type; a successful `HandleInteraction` returns, an error is logged and the
loop continues.  Modelled from the spec: the remaining bindings (buttons,
select menus, …) do not claim application-command events, so for a
command-type event the loop ends with the `binding not found` warning after
the command binding fails.  The function returns normally in every case —
nothing propagates to the platform. -/
def handleCommand (w : World) (runs : Nat → Bool) (interactionType : Nat)
    (data : InteractionData) : List DispatchLog × List ExecEvent :=
  if interactionType = interactionApplicationCommand then
    match handleInteraction w runs data with
    | (none, evs) => ([], evs)
    | (some e, evs) =>
      ([.warnBindingError "register_application_command" e,
        .warnBindingNotFound], evs)
  else ([.warnBindingNotFound], [])

/-- The global identifier minted by the `on_ready` registrar:
`fmt.Sprintf("on_ready_handler_%d", time.Now().Unix())`.  `t` is the Unix
timestamp, in seconds, at registration time. -/
def mintReadyName (t : Int) : String := "on_ready_handler_" ++ toString t

/-- The `on_ready` entry point installed by `(*LuaManager).addReady`: the
handler function is stored under the minted time-derived global name and
the name is appended to `OnReadyCbs`. -/
def addReady (w : World) (t : Int) (handlerId : Nat) : World :=
  let globalName := mintReadyName t
  { w with globals := assocSet w.globals globalName (.lfunc handlerId),
           onReadyCbs := w.onReadyCbs ++ [globalName] }

/-- One ready-callback invocation as performed inside the Runner task of
`(*LuaManager).ReadyHandler`: a `nil` global is logged as missing,
otherwise the callable is invoked under pcall. -/
inductive ReadyEvent where
  | missing (cb : String) : ReadyEvent
  | called (cb : String) (ok : Bool) : ReadyEvent

def ReadyEvent.cbName : ReadyEvent → String
  | .missing cb => cb
  | .called cb _ => cb

def readyEventFor (globals : List (String × LValue)) (runs : Nat → Bool)
    (cb : String) : ReadyEvent :=
  let fn := (assocGet globals cb).getD .lnil
  if fn.isNil then .missing cb else .called cb (callOk runs fn)

/-- `(*LuaManager).ReadyHandler`: bind the session on every binding first
(replaying any pending command registrations), then invoke each identifier
in `OnReadyCbs`, in list order, each as its own protected Runner task.
The list itself is not modified. -/
def readyHandler (w : World) (runs : Nat → Bool) (s : String) :
    World × List PlatformCall × List ReadyEvent :=
  let bound := setSessionB w s
  (bound.1, bound.2, bound.1.onReadyCbs.map (readyEventFor bound.1.globals runs))

/-- `discordgo` message components as built by `utils.ParseComponents`.
`discordgo.PrimaryButton = 1`. -/
inductive MessageComponent where
  | button (label customID : String) (style : Nat) (disabled : Bool) :
      MessageComponent
  | selectMenu (placeholder customID : String)
      (options : List (String × String)) (disabled : Bool) : MessageComponent
  | actionsRow (components : List MessageComponent) : MessageComponent

def primaryButton : Nat := 1

/-- The `disabled` handling shared by both component kinds: only an actual
boolean value is honoured. -/
def disabledOf (t : LValue) : Bool :=
  match rawGetString t "disabled" with
  | .lbool b => b
  | _ => false

/-- One iteration of the select-options `ForEach`: non-table entries are
skipped, otherwise `label` and `value` are read via `String()`. -/
def selectOptionOf (v : LValue) : Option (String × String) :=
  if v.isTab then
    some (lvToString (rawGetString v "label"), lvToString (rawGetString v "value"))
  else none

/-- One iteration of the outer `ForEach` of `utils.ParseComponents`:
non-table entries are skipped; the `type` field (via `String()`) selects the
component kind; a button takes `label`/`custom_id` with the default primary
style; a select takes `placeholder`/`custom_id` and requires a table
`options` field (skipped otherwise); unknown types are skipped. -/
def componentOf (v : LValue) : Option MessageComponent :=
  if v.isTab then
    let ty := lvToString (rawGetString v "type")
    if ty = "button" then
      some (.button (lvToString (rawGetString v "label"))
        (lvToString (rawGetString v "custom_id")) primaryButton (disabledOf v))
    else if ty = "select" then
      if (rawGetString v "options").isTab then
        some (.selectMenu (lvToString (rawGetString v "placeholder"))
          (lvToString (rawGetString v "custom_id"))
          ((forEachList (rawGetString v "options")).filterMap selectOptionOf)
          (disabledOf v))
      else none
    else none
  else none

/-- The outer component-accumulation loop of `utils.ParseComponents`. -/
def parseComponentsLoop (acc : List MessageComponent) :
    List LValue → List MessageComponent
  | [] => acc
  | v :: rest =>
    match componentOf v with
    | some c => parseComponentsLoop (acc ++ [c]) rest
    | none => parseComponentsLoop acc rest

/-- `utils.ParseComponents`: collect components from the table entries; wrap
them in a single action row when at least one was found, fail with
`no valid components found` otherwise. -/
def parseComponents (table : LValue) : Except String (List MessageComponent) :=
  let components := parseComponentsLoop [] (forEachList table)
  if components.isEmpty then .error "no valid components found"
  else .ok [.actionsRow components]

def DataOption.value : DataOption → LValue
  | .mk _ _ v _ => v

/-- A protected-call oracle under which every Lua function call succeeds. -/
def alwaysRuns : Nat → Bool := fun _ => true

/-- A fresh binding/manager state: no session, empty registries. -/
def emptyWorld : World := ⟨none, "guild", [], [], [], []⟩

/-- Descriptor for a command `foo` whose only option is a subcommand `bar`
carrying a handler; `foo` itself has no top-level handler. -/
def descFoo : LValue :=
  .ltable []
    [("name", .lstr "foo"), ("description", .lstr "d"),
     ("options", .ltable
        [.ltable [] [("name", .lstr "bar"), ("description", .lstr "b"),
                     ("type", .lnum 1), ("handler", .lfunc 7)]] [])]

/-- A minimal valid descriptor: command `ping`, no handler, no options. -/
def descPing : LValue :=
  .ltable [] [("name", .lstr "ping"), ("description", .lstr "p")]

/-- The command built from `descPing`. -/
def pingCmd : ApplicationCommand := ⟨"ping", "p", []⟩

/-- Descriptor with a top-level handler and a subcommand option that lacks
a handler function. -/
def descBadSub : LValue :=
  .ltable []
    [("name", .lstr "foo"), ("description", .lstr "d"), ("handler", .lfunc 9),
     ("options", .ltable
        [.ltable [] [("name", .lstr "bar"), ("description", .lstr "b"),
                     ("type", .lnum 1)]] [])]

/-- A component table holding a single button entry. -/
def buttonGoTable : LValue :=
  .ltable
    [.ltable [] [("type", .lstr "button"), ("label", .lstr "Go"),
                 ("custom_id", .lstr "go_btn")]] []

theorem register_session_eq (w : World) (cmd : LValue) :
    (register w cmd).world.session = w.session := by
  simp only [register]
  repeat' split
  all_goals simp_all

theorem register_guildID_eq (w : World) (cmd : LValue) :
    (register w cmd).world.guildID = w.guildID := by
  simp only [register]
  repeat' split
  all_goals simp_all

theorem register_calls_unbound (w : World) (cmd : LValue)
    (h : w.session = none) : (register w cmd).calls = [] := by
  simp only [register]
  repeat' split
  all_goals simp_all

theorem register_wait_append (w : World) (cmd : LValue)
    (h : w.session = none) (he : (register w cmd).err = none) :
    ∃ c, (register w cmd).world.waitRegister = w.waitRegister ++ [c] := by
  simp only [register] at he ⊢
  repeat' split at he
  all_goals simp_all
  all_goals repeat' split
  all_goals simp_all

theorem runRegs_unbound (ds : List LValue) (w : World) (h : w.session = none) :
    (runRegs w ds).2 = [] ∧ (runRegs w ds).1.session = none ∧
    (runRegs w ds).1.guildID = w.guildID := by
  induction ds generalizing w with
  | nil => simp [runRegs, h]
  | cons d rest ih =>
    have hs := register_session_eq w d
    have hg := register_guildID_eq w d
    have hc := register_calls_unbound w d h
    have hrest := ih (register w d).world (by rw [hs, h])
    simp [runRegs, hc, hrest.1, hrest.2.1, hrest.2.2, hs, hg, h]

/-- C1 (counterexample): after one registration made while unbound, a first
`SetSession` replays the queued command — and a second `SetSession` replays
it a second time, because the pending list is never discarded. -/
theorem c1_pending_list_not_discarded_cex :
    (setSessionB (register emptyWorld descPing).world "sess").2
      = [.commandCreate "sess" "guild" pingCmd] ∧
    (setSessionB (setSessionB (register emptyWorld descPing).world "sess").1
        "sess").2
      = [.commandCreate "sess" "guild" pingCmd] := by
  constructor <;>
    simp [register, descPing, emptyWorld, pingCmd, rawGetString, assocGet,
          assocSet, LValue.isStr, LValue.isNil, LValue.isTab, LValue.isFunc,
          lvToString, setSessionB]

/-- C1 (amended): registrations made while the session is absent emit no
platform call; each successful one appends exactly one command at the end
of the pending queue (so queue order is registration order); `SetSession`
replays the pending queue against the supplied session exactly once per
call, in queue order — but the queue is not discarded, so a second
`SetSession` replays the same pending registrations again. -/
theorem c1_deferred_registration_replay (ds : List LValue) (w : World)
    (s s' : String) (cmd : LValue) (h : w.session = none) :
    (runRegs w ds).2 = [] ∧
    ((register w cmd).err = none →
      ∃ c, (register w cmd).world.waitRegister = w.waitRegister ++ [c]) ∧
    (setSessionB (runRegs w ds).1 s).2
      = (runRegs w ds).1.waitRegister.map
          (fun c => PlatformCall.commandCreate s w.guildID c) ∧
    (setSessionB (setSessionB (runRegs w ds).1 s).1 s').2
      = (runRegs w ds).1.waitRegister.map
          (fun c => PlatformCall.commandCreate s' w.guildID c) := by
  obtain ⟨hc, hsess, hguild⟩ := runRegs_unbound ds w h
  refine ⟨hc, fun he => register_wait_append w cmd h he, ?_, ?_⟩
  · simp [setSessionB, hguild]
  · simp [setSessionB, hguild]

/-- C1 (witness): a concrete registration sequence against the unbound
state makes no platform call. -/
theorem c1_deferred_registration_replay_witness :
    (runRegs emptyWorld [descPing]).2 = [] :=
  (c1_deferred_registration_replay [descPing] emptyWorld "a" "b" descPing
    rfl).1

/-- C2 (counterexample): in the event whose option list is a string option
`x` followed by a subcommand option `bar`, the first option is not of
subcommand type, yet `HandleInteraction` computes the key `foo_bar`, not
`foo` — the appended name is that of the first subcommand-typed option
anywhere in the list, not of the first option. -/
theorem c2_first_option_cex :
    computeKey "foo"
      [.mk "x" 3 .lnil none, .mk "bar" 1 .lnil none] = "foo_bar" ∧
    "foo_bar" ≠ "foo" := ⟨rfl, by decide⟩

/-- C2 (amended): the dispatch key is the top-level command name, with a
separator and a subcommand name appended exactly when some option of
subcommand type occurs in the event's option list — the name appended being
that of the first such option; the key depends only on the top-level
`(type, name)` pairs, so options after the first subcommand-typed one and
nesting below the top level are never incorporated. -/
theorem c2_dispatch_key_characterisation (name : String)
    (opts : List DataOption) :
    computeKey name opts =
      match (opts.map (fun o => (o.typ, o.name))).find? (fun p => p.1 == 1) with
      | some p => name ++ "_" ++ p.2
      | none => name := by
  induction opts with
  | nil => rfl
  | cons o rest ih =>
    obtain ⟨onm, oty, ov, oo⟩ := o
    simp only [computeKey, List.map_cons, DataOption.typ, DataOption.name]
    by_cases h : oty = 1
    · simp [h, List.find?]
    · have hb : (oty == 1) = false := by simp [h]
      rw [List.find?_cons]
      simp only [hb]
      simp only [ih, h]
      rfl

/-- C3 (counterexample): flattening the option list `integer a = 1,
subcommand s (integer b = 2)` keeps the shallow option `a` alongside the
deepest level's `b`, so shallower-level options are not discarded once a
nested subcommand with options is found. -/
theorem c3_shallow_retained_cex :
    assocGet (buildOptionsTable []
      [.mk "a" 4 (.lnum 1) none,
       .mk "s" 1 .lnil (some [.mk "b" 4 (.lnum 2) none])]) "a"
      = some (.lnum 1) ∧
    assocGet (buildOptionsTable []
      [.mk "a" 4 (.lnum 1) none,
       .mk "s" 1 .lnil (some [.mk "b" 4 (.lnum 2) none])]) "b"
      = some (.lnum 2) := by
  constructor <;>
    simp [buildOptionsTable, assocSet, assocGet, optionLuaValue, lvNumOf]

/-- C3 (amended): the flattening recurses into the first subcommand option
carrying a present nested option list, accumulating into the same mapping:
non-subcommand options preceding it at the shallower level are retained
(already folded into the accumulator), options following it at that level
are discarded, and the nested list supplies the rest of the mapping. -/
theorem c3_flattening_descends_keeping_prefix (T : List (String × LValue))
    (pre post : List DataOption) (sname : String) (v : LValue)
    (inner : List DataOption) (hpre : ∀ o ∈ pre, o.typ ≠ 1) :
    buildOptionsTable T (pre ++ DataOption.mk sname 1 v (some inner) :: post) =
      buildOptionsTable
        (pre.foldl
          (fun acc o => assocSet acc o.name (optionLuaValue o.typ o.value)) T)
        inner := by
  induction pre generalizing T with
  | nil => simp [buildOptionsTable]
  | cons o rest ih =>
    obtain ⟨onm, oty, ov, oo⟩ := o
    have h1 : oty ≠ 1 := by
      have := hpre ⟨onm, oty, ov, oo⟩ (by simp)
      simpa [DataOption.typ] using this
    have step :
        buildOptionsTable T
            (DataOption.mk onm oty ov oo ::
              (rest ++ DataOption.mk sname 1 v (some inner) :: post)) =
          buildOptionsTable (assocSet T onm (optionLuaValue oty ov))
            (rest ++ DataOption.mk sname 1 v (some inner) :: post) := by
      rw [buildOptionsTable.eq_def]
      simp [h1]
    have fold :
        List.foldl
            (fun acc o => assocSet acc o.name (optionLuaValue o.typ o.value)) T
            (DataOption.mk onm oty ov oo :: rest) =
          List.foldl
            (fun acc o => assocSet acc o.name (optionLuaValue o.typ o.value))
            (assocSet T onm (optionLuaValue oty ov)) rest := by
      simp [DataOption.name, DataOption.typ, DataOption.value]
    rw [List.cons_append, step, fold]
    exact ih (assocSet T onm (optionLuaValue oty ov))
      (fun o ho => hpre o (by simp [ho]))

/-- C3 (witness for the amended theorem): concrete instance with one
shallow integer option before the subcommand and one discarded option
after it. -/
theorem c3_flattening_witness :
    buildOptionsTable []
      ([DataOption.mk "a" 4 (.lnum 1) none] ++
        DataOption.mk "s" 1 .lnil (some [DataOption.mk "b" 4 (.lnum 2) none]) ::
          [DataOption.mk "zzz" 3 (.lstr "dropped") none]) =
      buildOptionsTable
        ([DataOption.mk "a" 4 (.lnum 1) none].foldl
          (fun acc o => assocSet acc o.name (optionLuaValue o.typ o.value)) [])
        [DataOption.mk "b" 4 (.lnum 2) none] :=
  c3_flattening_descends_keeping_prefix [] [DataOption.mk "a" 4 (.lnum 1) none]
    [DataOption.mk "zzz" 3 (.lstr "dropped") none] "s" .lnil
    [DataOption.mk "b" 4 (.lnum 2) none]
    (by intro o ho; simp at ho; subst ho; simp [DataOption.typ])

/-- C4: registering command `foo` whose single option is subcommand `bar`
with a handler stores exactly one dispatch entry, under the combined key
`foo_bar` (no entry under the bare key `foo`), and an inbound `foo` event
whose first option is `bar` of subcommand type dispatches to that stored
handler. -/
theorem c4_subcommand_dispatch :
    (register emptyWorld descFoo).err = none ∧
    (register emptyWorld descFoo).world.commands
      = [("foo_bar", "handler_foo_bar")] ∧
    assocGet (register emptyWorld descFoo).world.commands "foo" = none ∧
    handleInteraction (register emptyWorld descFoo).world alwaysRuns
        ⟨"foo", [.mk "bar" 1 .lnil none]⟩
      = (none, [.handlerCalled "handler_foo_bar" [] true]) := by
  refine ⟨?_, ?_, ?_, ?_⟩ <;>
    simp [register, parseOptionsList, descFoo, emptyWorld, rawGetString,
          assocGet, assocSet, LValue.isStr, LValue.isNil, LValue.isTab,
          LValue.isFunc, LValue.isNum, lvToString, lvNumOf, lvAsBool,
          uint8OfInt, forEachList, handleInteraction, computeKey,
          buildOptionsTable, callOk, alwaysRuns]

/-- C6: the `on_ready` registrar derives the callback's global identifier
from the Unix time in seconds, so two distinct registrations made during
the same second (here both at second 100) mint the same identifier: the
second handler overwrites the first under that global, the identifier list
holds the same name twice, and firing readiness then invokes the second
handler twice while the first is never invoked. -/
theorem c6_time_derived_ids_collide :
    (addReady (addReady emptyWorld 100 1) 100 2).onReadyCbs
      = [mintReadyName 100, mintReadyName 100] ∧
    assocGet (addReady (addReady emptyWorld 100 1) 100 2).globals
        (mintReadyName 100) = some (.lfunc 2) ∧
    (readyHandler (addReady (addReady emptyWorld 100 1) 100 2) alwaysRuns
        "s").2.2
      = [.called (mintReadyName 100) true, .called (mintReadyName 100) true] := by
  refine ⟨?_, ?_, ?_⟩ <;>
    simp [addReady, emptyWorld, mintReadyName, assocSet, assocGet,
          readyHandler, setSessionB, readyEventFor, callOk, alwaysRuns,
          LValue.isNil]

theorem readyEventFor_cbName (g : List (String × LValue)) (runs : Nat → Bool)
    (cb : String) : (readyEventFor g runs cb).cbName = cb := by
  simp only [readyEventFor]
  split <;> rfl

/-- C5 (counterexample): the callback list survives the readiness handler,
so a second readiness signal (the platform may re-emit `ready` on
reconnection) invokes the registered callback again — it does not fire
exactly once for the process lifetime. -/
theorem c5_second_signal_reinvokes_cex :
    (readyHandler (addReady emptyWorld 5 1) alwaysRuns "s").2.2
      = [.called (mintReadyName 5) true] ∧
    (readyHandler (readyHandler (addReady emptyWorld 5 1) alwaysRuns "s").1
        alwaysRuns "s").2.2
      = [.called (mintReadyName 5) true] := by
  constructor <;>
    simp [readyHandler, setSessionB, addReady, emptyWorld, readyEventFor,
          assocSet, assocGet, mintReadyName, callOk, alwaysRuns, LValue.isNil]

/-- C5 (amended): on each readiness signal every registered callback is
invoked exactly once, in registration order, inside a protected call, and
the invocation sequence is the same whatever failures the protected calls
report (a failing callback never suppresses a later one); the callback list
is left in place, so a second readiness signal invokes every callback
again. -/
theorem c5_ready_callbacks_per_signal (w : World) (runs runs2 : Nat → Bool)
    (s s2 : String) :
    (readyHandler w runs s).2.2.map ReadyEvent.cbName = w.onReadyCbs ∧
    (readyHandler w runs s).1.onReadyCbs = w.onReadyCbs ∧
    (readyHandler (readyHandler w runs s).1 runs2 s2).2.2.map
        ReadyEvent.cbName = w.onReadyCbs := by
  have hcomp : ∀ (g : List (String × LValue)) (r : Nat → Bool),
      ReadyEvent.cbName ∘ readyEventFor g r = id :=
    fun g r => funext (fun cb => readyEventFor_cbName g r cb)
  refine ⟨?_, ?_, ?_⟩ <;>
    simp [readyHandler, setSessionB, List.map_map, hcomp]

/-- C7: when the computed dispatch key has no `Commands` entry,
`HandleInteraction` returns the `not registered` error without submitting
any Runner task (no script handler runs), and the dispatcher's reaction is
two warning log records — `HandleCommand` returns normally, raising nothing
toward the platform or the process. -/
theorem c7_unregistered_key_outcome (w : World) (runs : Nat → Bool)
    (data : InteractionData)
    (h : assocGet w.commands (computeKey data.name data.options) = none) :
    handleInteraction w runs data
      = (some ("command \x27" ++ computeKey data.name data.options ++
          "\x27 not registered"), []) ∧
    handleCommand w runs interactionApplicationCommand data
      = ([.warnBindingError "register_application_command"
            ("command \x27" ++ computeKey data.name data.options ++
              "\x27 not registered"),
          .warnBindingNotFound], []) := by
  have h1 : handleInteraction w runs data
      = (some ("command \x27" ++ computeKey data.name data.options ++
          "\x27 not registered"), []) := by
    simp [handleInteraction, h]
  exact ⟨h1, by simp [handleCommand, h1, interactionApplicationCommand]⟩

/-- C7 (witness): dispatching an event for the unknown command `zap`
against a fresh state. -/
theorem c7_unregistered_key_witness :
    handleInteraction emptyWorld alwaysRuns ⟨"zap", []⟩
      = (some "command \x27zap\x27 not registered", []) := by
  have := (c7_unregistered_key_outcome emptyWorld alwaysRuns ⟨"zap", []⟩
    rfl).1
  simpa using this

/-- C10: whenever the computed dispatch key has a registered `Commands`
entry, `HandleInteraction` returns `nil` whatever the Runner task observes
— a missing handler global and a failing protected call are only logged —
and the dispatcher treats the event as handled (no warnings). -/
theorem c10_registered_key_never_fails (w : World) (runs : Nat → Bool)
    (data : InteractionData) (g : String)
    (h : assocGet w.commands (computeKey data.name data.options) = some g) :
    (handleInteraction w runs data).1 = none ∧
    handleCommand w runs interactionApplicationCommand data
      = ([], (handleInteraction w runs data).2) := by
  have h1 : (handleInteraction w runs data).1 = none := by
    simp only [handleInteraction, h]
    split <;> rfl
  refine ⟨h1, ?_⟩
  cases hr : handleInteraction w runs data with
  | mk e evs =>
    rw [hr] at h1
    simp at h1
    simp [handleCommand, interactionApplicationCommand, hr, h1]

/-- C10 (witness): a registered key whose handler global is missing still
yields a `nil` dispatch outcome. -/
theorem c10_registered_key_never_fails_witness :
    (handleInteraction ⟨none, "guild", [("foo", "hfoo")], [], [], []⟩
        alwaysRuns ⟨"foo", []⟩).1 = none :=
  (c10_registered_key_never_fails ⟨none, "guild", [("foo", "hfoo")], [], [],
    []⟩ alwaysRuns ⟨"foo", []⟩ "hfoo" (by simp [computeKey, assocGet])).1

theorem parseComponentsLoop_eq_filterMap (acc : List MessageComponent)
    (vs : List LValue) :
    parseComponentsLoop acc vs = acc ++ vs.filterMap componentOf := by
  induction vs generalizing acc with
  | nil => simp [parseComponentsLoop]
  | cons v rest ih =>
    cases hv : componentOf v <;> simp [parseComponentsLoop, hv, ih]

/-- C8: marshalling a table holding one button entry with label `Go` and
custom id `go_btn` yields exactly one action row holding exactly one button
with that label, that custom id, the default primary style and not
disabled; marshalling any table in which no entry yields a component
produces no component structure, only the error
`no valid components found`. -/
theorem c8_component_marshalling :
    parseComponents buttonGoTable
      = .ok [.actionsRow [.button "Go" "go_btn" primaryButton false]] ∧
    ∀ t : LValue, (∀ v ∈ forEachList t, componentOf v = none) →
      parseComponents t = .error "no valid components found" := by
  constructor
  · simp [parseComponents, buttonGoTable, forEachList, parseComponentsLoop,
          componentOf, rawGetString, assocGet, lvToString, disabledOf,
          LValue.isTab, primaryButton]
  · intro t ht
    have hnil : (forEachList t).filterMap componentOf = [] :=
      List.filterMap_eq_nil.mpr ht
    simp [parseComponents, parseComponentsLoop_eq_filterMap, hnil]

/-- C8 (witness): the empty component table fails with
`no valid components found`. -/
theorem c8_component_marshalling_witness :
    parseComponents (.ltable [] []) = .error "no valid components found" :=
  c8_component_marshalling.2 (.ltable [] [])
    (by intro v hv; simp [forEachList] at hv)

/-- C9 (counterexample): registering a descriptor whose options hold a
subcommand without a handler raises the subcommand-handler argument error,
yet the record for the descriptor's own handler (`foo` ↦ `handler_foo`) has
already been stored by the same registration call — the error is not raised
before any command record is stored. -/
theorem c9_record_stored_before_error_cex :
    (register emptyWorld descBadSub).err
      = some "Subcommand \x27%s\x27 must have a \x27handler\x27 function" ∧
    assocGet (register emptyWorld descBadSub).world.commands "foo"
      = some "handler_foo" ∧
    (register emptyWorld descBadSub).calls = [] := by
  refine ⟨?_, ?_, ?_⟩ <;>
    simp [register, parseOptionsList, descBadSub, emptyWorld, rawGetString,
          assocGet, assocSet, LValue.isStr, LValue.isNil, LValue.isTab,
          LValue.isFunc, LValue.isNum, lvToString, lvNumOf, lvAsBool,
          uint8OfInt, forEachList]

/-- C9 (amended): a raised registration error always precedes any platform
call; the four field-kind validations (non-string `name`, non-string
`description`, present non-function `handler`, present non-table `options`)
each raise their descriptive argument error with the state completely
unchanged — while a subcommand option lacking a handler raises after the
records created earlier in the same call (see the counterexample). -/
theorem c9_validation_failures (w : World) (cmd : LValue) :
    ((register w cmd).err.isSome → (register w cmd).calls = []) ∧
    ((rawGetString cmd "name").isStr = false →
      register w cmd = ⟨w, [], some "\x27name\x27 must be a string"⟩) ∧
    ((rawGetString cmd "name").isStr = true →
      (rawGetString cmd "description").isStr = false →
      register w cmd = ⟨w, [], some "\x27description\x27 must be a string"⟩) ∧
    ((rawGetString cmd "name").isStr = true →
      (rawGetString cmd "description").isStr = true →
      (rawGetString cmd "handler").isNil = false →
      (rawGetString cmd "handler").isFunc = false →
      register w cmd
        = ⟨w, [], some "\x27handler\x27 must be a function if provided"⟩) ∧
    ((rawGetString cmd "name").isStr = true →
      (rawGetString cmd "description").isStr = true →
      ((rawGetString cmd "handler").isNil = true ∨
        (rawGetString cmd "handler").isFunc = true) →
      (rawGetString cmd "options").isNil = false →
      (rawGetString cmd "options").isTab = false →
      register w cmd
        = ⟨w, [], some "\x27options\x27 must be a table if provided"⟩) := by
  refine ⟨?_, ?_, ?_, ?_, ?_⟩
  · intro he
    simp only [register] at he ⊢
    repeat' split at he
    all_goals simp_all
    all_goals repeat' split
    all_goals simp_all
  · intro h1
    simp [register, h1]
  · intro h1 h2
    simp [register, h1, h2]
  · intro h1 h2 h3 h4
    simp [register, h1, h2, h3, h4]
  · intro h1 h2 h3 h4 h5
    rcases h3 with h3 | h3 <;> simp [register, h1, h2, h3, h4, h5]

/-- C9 (witness): a descriptor whose `name` is a number is rejected with
the `name` argument error and no state change. -/
theorem c9_validation_failures_witness :
    register emptyWorld (.ltable [] [("name", .lnum 3)])
      = ⟨emptyWorld, [], some "\x27name\x27 must be a string"⟩ :=
  (c9_validation_failures emptyWorld (.ltable [] [("name", .lnum 3)])).2.1
    rfl

end Driftwood
